import Mathlib

/-!
# Verification of the macro-dashboard data-acquisition and caching layer

Shallow embedding of the two service modules of the repository
(`services/market_data.py` and `services/fred_data.py`) and proofs of the
specification claims about them.

Modelling conventions:
* Python floats are modelled as `ℚ` (exact rational arithmetic).
* Python `datetime` values are modelled as a pair of the epoch timestamp
  (`.timestamp()`) and the fixed-format KST display string (`.strftime(...)`),
  both derived from the single `datetime.now(ZoneInfo("Asia/Seoul"))` call.
* Dynamic payload dictionaries are association lists over a small Python
  value type `PyVal` with Python truthiness.
* Network fetches are oracles passed as explicit arguments; each provider
  result records how many upstream fetch calls the execution performed, so
  that "no upstream fetch" is expressible.
* Dates of FRED observations are modelled as day ordinals (`ℕ`); the
  `strftime("%Y-%m-%d")` rendering of a date is abstracted away.
-/

/-- A dynamic Python value as it appears in upstream payload dictionaries:
`None`, a number (float/int, modelled as `ℚ`), or a string. -/
inductive PyVal where
  | none : PyVal
  | num : ℚ → PyVal
  | str : String → PyVal
deriving DecidableEq

/-- Python truthiness on `PyVal`: `None`, `0` and `""` are falsy. -/
def PyVal.truthy : PyVal → Bool
  | .none => false
  | .num q => q ≠ 0
  | .str s => s ≠ ""

/-- Python `a or b` as a value-level operation: `a` if `a` is truthy, else `b`. -/
def pyOr (a b : PyVal) : PyVal :=
  if a.truthy then a else b

/-- Python `float(...)` on a payload value.  The source applies it only to
numeric payload fields; a non-numeric string would raise in the source and
is outside the modelled input space, so it is mapped to `0` here (no claim
exercises that case). -/
def pyFloat : PyVal → ℚ
  | .num q => q
  | _ => 0

/-- Python `int(...)` on a float: truncation toward zero. -/
def pyInt (q : ℚ) : ℤ :=
  Int.tdiv q.num (q.den : ℤ)

/-- The ASCII whitespace characters removed by Python `str.strip()`
(space, tab, newline, carriage return, vertical tab, form feed; the model
covers the ASCII range). -/
def isPyWhitespace (c : Char) : Bool :=
  c = ' ' ∨ c = Char.ofNat 9 ∨ c = Char.ofNat 10 ∨ c = Char.ofNat 13 ∨
    c = Char.ofNat 11 ∨ c = Char.ofNat 12

/-- Python `str.strip()`: drop leading and trailing whitespace. -/
def pyStrip (s : String) : String :=
  String.mk (((s.toList.dropWhile isPyWhitespace).reverse.dropWhile
    isPyWhitespace).reverse)

/-- Uppercase one character (ASCII range of Python `str.upper()`). -/
def pyUpperChar (c : Char) : Char :=
  if 'a' ≤ c ∧ c ≤ 'z' then Char.ofNat (c.toNat - 32) else c

/-- Python `str.upper()` (ASCII range). -/
def pyUpper (s : String) : String :=
  String.mk (s.toList.map pyUpperChar)

/-- Round a rational to the nearest integer, ties to even — the rounding
used by Python `format(x, ".2f")` on exact decimal values. -/
def roundHalfEven (q : ℚ) : ℤ :=
  let f := ⌊q⌋
  if q - f < 1 / 2 then f
  else if q - f > 1 / 2 then f + 1
  else if f % 2 = 0 then f else f + 1

/-- Pad a string on the left with zeros up to length `d`. -/
def padZeros (s : String) (d : ℕ) : String :=
  String.mk (List.replicate (d - s.length) '0') ++ s

/-- Insert thousands separators into the decimal representation of a
natural number (`format(n, ",")`). -/
def commaGroup (n : ℕ) : String :=
  let rev := (toString n).toList.reverse
  String.mk (rev.enum.foldl
    (fun acc ic =>
      if ic.1 ≠ 0 ∧ ic.1 % 3 = 0 then ic.2 :: ',' :: acc else ic.2 :: acc)
    [])

/-- `f"{x:.df}"`: fixed-point rendering with `d` decimals, round half to
even, no thousands separators.  The sign comes from the value itself, as in
Python (`-0.001` renders as `-0.00`). -/
def fmtFloat (x : ℚ) (d : ℕ) : String :=
  let n := (roundHalfEven (|x| * (10 : ℚ) ^ d)).toNat
  let sgn := if x < 0 then "-" else ""
  if d = 0 then sgn ++ toString n
  else sgn ++ toString (n / 10 ^ d) ++ "." ++ padZeros (toString (n % 10 ^ d)) d

/-- `market_data._fmt_number` / `f"{x:,.df}"`: like `fmtFloat` but with
thousands separators in the integer part. -/
def fmtNumber (x : ℚ) (d : ℕ) : String :=
  let n := (roundHalfEven (|x| * (10 : ℚ) ^ d)).toNat
  let sgn := if x < 0 then "-" else ""
  if d = 0 then sgn ++ commaGroup n
  else sgn ++ commaGroup (n / 10 ^ d) ++ "." ++ padZeros (toString (n % 10 ^ d)) d

/-- `_fmt_pct` (identical in both service modules): a leading `+` for
non-negative values, two decimals, `%` suffix. -/
def fmtPct (x : ℚ) (d : ℕ) : String :=
  (if x ≥ 0 then "+" else "") ++ fmtFloat x d ++ "%"

/-- A fetched upstream payload dictionary (Python `dict[str, Any]`),
modelled as an association list (first binding wins, as dict keys are
unique). -/
abbrev Payload := List (String × PyVal)

/-- `payload.get(k)`: the value bound to `k`, or `None` when absent. -/
def payloadGet (p : Payload) (k : String) : PyVal :=
  (((p.find? (fun e => e.1 = k)).map Prod.snd)).getD PyVal.none

/-- `(v or "")` followed by string use: a truthy string passes through,
falsy values become `""`.  (A truthy non-string would raise on `.upper()`
in the source and is outside the modelled input space.) -/
def pyStrOrEmpty : PyVal → String
  | .str s => s
  | _ => ""

/-- A Python `datetime` as used by the providers: the epoch timestamp
(`.timestamp()`) and the `"%Y-%m-%d %H:%M KST"` display rendering
(`.strftime`), both views of one `datetime.now(ZoneInfo("Asia/Seoul"))`. -/
structure PyDateTime where
  epoch : ℚ
  kst : String
deriving DecidableEq

namespace MarketData

/-- `market_data.Indicator` (TypedDict). -/
structure Indicator where
  name : String
  value : String
  change : String
  is_positive : Bool
  source : String
deriving DecidableEq

/-- `market_data.StockQuote` (TypedDict). -/
structure StockQuote where
  price : String
  change : String
  change_value : String
  change_pct : String
  is_positive : Bool
  volume : String
  market_cap : String
  source : String
deriving DecidableEq

/-- The guarded percent change of both providers:
`((last - prev) / prev) * 100.0 if prev else 0.0`
(`_mk_from_quote` line 218 and `get_stock_quote` line 316). -/
def pctChangeGuarded (last prev : ℚ) : ℚ :=
  if prev = 0 then 0 else (last - prev) / prev * 100

/-- `market_data._fmt_compact_money`: compact K/M/B/T rendering with a `$`
only for the USD currency code. -/
def fmtCompactMoney (v : ℚ) (currency : PyVal) : String :=
  let pfx := if pyUpper (pyStrOrEmpty currency) = "USD" then "$" else ""
  let a := |v|
  if a ≥ 1000000000000 then pfx ++ fmtFloat (v / 1000000000000) 2 ++ "T"
  else if a ≥ 1000000000 then pfx ++ fmtFloat (v / 1000000000) 2 ++ "B"
  else if a ≥ 1000000 then pfx ++ fmtFloat (v / 1000000) 2 ++ "M"
  else if a ≥ 1000 then pfx ++ fmtFloat (v / 1000) 2 ++ "K"
  else pfx ++ fmtNumber v 0

/-- `f"{int(float(volume)):,}"`: grouped integer rendering. -/
def intGrouped (n : ℤ) : String :=
  (if n < 0 then "-" else "") ++ commaGroup n.natAbs

/-- `_mk_from_quote` inside `get_indicators`: one basket `Indicator` from
the batch-quote dictionary (`quotes.get(sym)` yields `none` when the
symbol had fewer than two price observations). -/
def mkFromQuote (quotes : String → Option (ℚ × ℚ)) (name sym : String)
    (decimals : ℕ) (pfx : String) : Indicator :=
  match quotes sym with
  | Option.none =>
    { name, value := "—", change := "—", is_positive := true, source := "yfinance" }
  | some (last, prev) =>
    let pct := pctChangeGuarded last prev
    { name
      value := pfx ++ fmtNumber last decimals
      change := fmtPct pct 2
      is_positive := decide (pct ≥ 0)
      source := "yfinance" }

/-- The indicator list built on a cache miss (`get_indicators` lines
192-243): eight basket symbols plus the EFFR policy-rate entry. -/
def buildIndicators (quotes : String → Option (ℚ × ℚ)) (effrRate : ℚ)
    (effrDate : String) : List Indicator :=
  [ mkFromQuote quotes "KOSPI" "^KS11" 2 ""
  , mkFromQuote quotes "KOSDAQ" "^KQ11" 2 ""
  , mkFromQuote quotes "S&P 500" "^GSPC" 2 ""
  , mkFromQuote quotes "NASDAQ" "^IXIC" 2 ""
  , mkFromQuote quotes "USD/KRW" "KRW=X" 2 ""
  , mkFromQuote quotes "Bitcoin" "BTC-USD" 2 "$"
  , mkFromQuote quotes "Ethereum" "ETH-USD" 2 "$"
  , mkFromQuote quotes "XRP" "XRP-USD" 4 "$"
  , { name := "미국 기준금리 (EFFR)"
      value := fmtFloat effrRate 2 ++ "%"
      change := effrDate
      is_positive := true
      source := "nyfed" } ]

/-- The module-level `_Cache` entry for the indicator basket. -/
structure IndCacheEntry where
  fetched_at : ℚ
  indicators : List Indicator
  last_updated : String
deriving DecidableEq

/-- Oracle for the two upstream fetches of `get_indicators`: the batch
quote dictionary and the EFFR record. -/
structure IndFetch where
  quotes : String → Option (ℚ × ℚ)
  effrRate : ℚ
  effrDate : String

/-- Result of one `get_indicators` call: the returned triple, the cache
state after the call, and how many upstream fetch calls were made. -/
structure IndResult where
  indicators : List Indicator
  last_updated : String
  is_cached : Bool
  cacheAfter : Option IndCacheEntry
  fetchCalls : ℕ
deriving DecidableEq

/-- The cache-validity guard of `get_indicators` (line 188):
`_CACHE is not None and (now_epoch - _CACHE.fetched_at_epoch) < ttl_seconds`. -/
def indHit : Option IndCacheEntry → ℚ → ℚ → Bool
  | some c, nowE, ttl => decide (nowE - c.fetched_at < ttl)
  | Option.none, _, _ => false

/-- The cache-miss tail of `get_indicators`: two upstream fetches, build
the list, overwrite the cache, return `is_cached = false`. -/
def indRefresh (now : PyDateTime) (f : IndFetch) : IndResult :=
  let inds := buildIndicators f.quotes f.effrRate f.effrDate
  { indicators := inds
    last_updated := now.kst
    is_cached := false
    cacheAfter := some ⟨now.epoch, inds, now.kst⟩
    fetchCalls := 2 }

/-- `market_data.get_indicators`, as a function of the explicit cache
state, the current datetime, the TTL and the fetch oracle. -/
def getIndicators (cache : Option IndCacheEntry) (now : PyDateTime)
    (ttl : ℚ) (f : IndFetch) : IndResult :=
  match cache with
  | some c =>
    if now.epoch - c.fetched_at < ttl then
      { indicators := c.indicators
        last_updated := c.last_updated
        is_cached := true
        cacheAfter := some c
        fetchCalls := 0 }
    else indRefresh now f
  | Option.none => indRefresh now f

end MarketData

namespace MarketData

/-- The probe chain for the last price (`get_stock_quote` lines 282-287):
`payload.get("last_price") or payload.get("lastPrice") or
payload.get("regularMarketPrice") or payload.get("currentPrice")`. -/
def lastOf (p : Payload) : PyVal :=
  pyOr (payloadGet p "last_price") (pyOr (payloadGet p "lastPrice")
    (pyOr (payloadGet p "regularMarketPrice") (payloadGet p "currentPrice")))

/-- The probe chain for the previous close (lines 288-292). -/
def prevOf (p : Payload) : PyVal :=
  pyOr (payloadGet p "previous_close") (pyOr (payloadGet p "previousClose")
    (payloadGet p "regularMarketPreviousClose"))

/-- The probe chain for the volume (lines 293-298). -/
def volumeOf (p : Payload) : PyVal :=
  pyOr (payloadGet p "last_volume") (pyOr (payloadGet p "lastVolume")
    (pyOr (payloadGet p "regularMarketVolume") (payloadGet p "volume")))

/-- The probe chain for the market capitalization (line 299). -/
def marketCapOf (p : Payload) : PyVal :=
  pyOr (payloadGet p "market_cap") (payloadGet p "marketCap")

/-- The degenerate quote returned when the last price or the previous
close cannot be resolved (`get_stock_quote` lines 301-311). -/
def placeholderQuote (src : String) : StockQuote :=
  { price := "—", change := "—", change_value := "—", change_pct := ""
    is_positive := true, volume := "—", market_cap := "—", source := src }

/-- Normalization of a fetched payload into a `StockQuote`
(`get_stock_quote` lines 279-339). -/
def buildStockQuote (p : Payload) (src : String) : StockQuote :=
  let currency := payloadGet p "currency"
  let last := lastOf p
  let prev := prevOf p
  let volume := volumeOf p
  let market_cap := marketCapOf p
  if last = PyVal.none ∨ prev = PyVal.none then placeholderQuote src
  else
    let last_f := pyFloat last
    let prev_f := if prev.truthy then pyFloat prev else 0
    let chg := last_f - prev_f
    let pct := pctChangeGuarded last_f prev_f
    let moneyPfx := if pyUpper (pyStrOrEmpty currency) = "USD" then "$" else ""
    let price_str := moneyPfx ++ fmtNumber last_f 2
    let cv0 := fmtNumber chg 2
    let change_value := if chg ≥ 0 then "+" ++ cv0 else cv0
    let change_pct := "(" ++ fmtPct pct 2 ++ ")"
    { price := price_str
      change := change_value ++ " " ++ change_pct
      change_value := change_value
      change_pct := change_pct
      is_positive := decide (pct ≥ 0)
      volume := if volume = PyVal.none then "—" else intGrouped (pyInt (pyFloat volume))
      market_cap :=
        if market_cap = PyVal.none then "—"
        else fmtCompactMoney (pyFloat market_cap) currency
      source := src }

/-- The module-level `_StockCache` entry (single slot, keyed by symbol). -/
structure StockCacheEntry where
  fetched_at : ℚ
  symbol : String
  quote : StockQuote
  last_updated : String
deriving DecidableEq

/-- Oracle for `_fetch_yfinance_stock_quote` on the normalized symbol:
the payload dictionary and the provenance tag. -/
structure StockFetch where
  payload : Payload
  src : String
deriving DecidableEq

/-- Result of one `get_stock_quote` call. -/
structure StockResult where
  quote : StockQuote
  last_updated : String
  is_cached : Bool
  cacheAfter : Option StockCacheEntry
  fetchCalls : ℕ
deriving DecidableEq

/-- The cache-validity guard of `get_stock_quote` (lines 270-274): entry
present, symbol equal to the normalized request, and within TTL. -/
def stockHit : Option StockCacheEntry → String → ℚ → ℚ → Bool
  | some c, symU, nowE, ttl =>
    decide (c.symbol = symU) && decide (nowE - c.fetched_at < ttl)
  | Option.none, _, _, _ => false

/-- The cache-miss tail of `get_stock_quote` (lines 277-348): one upstream
fetch, build the quote, always overwrite the single-slot cache keyed by
the normalized symbol. -/
def stockRefresh (now : PyDateTime) (symU : String) (f : StockFetch) :
    StockResult :=
  let q := buildStockQuote f.payload f.src
  { quote := q
    last_updated := now.kst
    is_cached := false
    cacheAfter := some ⟨now.epoch, symU, q, now.kst⟩
    fetchCalls := 1 }

/-- `market_data.get_stock_quote`, as a function of the explicit cache
state, the current datetime, the raw symbol, the TTL and the fetch oracle
(the fetch oracle stands for `_fetch_yfinance_stock_quote(symbol_u)`). -/
def getStockQuote (cache : Option StockCacheEntry) (now : PyDateTime)
    (symbol : String) (ttl : ℚ) (f : StockFetch) : StockResult :=
  let symU := pyUpper (pyStrip symbol)
  match cache with
  | some c =>
    if c.symbol = symU ∧ now.epoch - c.fetched_at < ttl then
      { quote := c.quote
        last_updated := c.last_updated
        is_cached := true
        cacheAfter := some c
        fetchCalls := 0 }
    else stockRefresh now symU f
  | Option.none => stockRefresh now symU f

end MarketData

namespace FredData

/-- One FRED time series after `_fetch_fred_series`: (date, value) records
in the upstream order (FRED is queried with `sort_order = "asc"`, so dates
are strictly increasing), missing-value sentinels already dropped. -/
abbrev Series := List (ℕ × ℚ)

/-- The value of a series at an exact date, if the series reports one. -/
def seriesAt (s : Series) (d : ℕ) : Option ℚ :=
  (s.find? (fun e => e.1 = d)).map Prod.snd

/-- One cell of the outer-joined frame after `ffill` (line 167): the
series value at this date when present, otherwise the carried-forward
previous cell of the same column. -/
def ffillCell (s : Series) (d : ℕ) (carry : Option ℚ) : Option ℚ :=
  match seriesAt s d with
  | some v => some v
  | Option.none => carry

/-- Specification-side description of forward filling: the last known
value of the series at a date less than or equal to `d`. -/
def lastValueLE (s : Series) (d : ℕ) : Option ℚ :=
  ((s.filter (fun e => e.1 ≤ d)).getLast?).map Prod.snd

/-- The last known value of the series strictly before `d`. -/
def lastValueLT (s : Series) (d : ℕ) : Option ℚ :=
  ((s.filter (fun e => e.1 < d)).getLast?).map Prod.snd

/-- Ordered insertion without duplicates, used to build the union of the
date indexes (`pd.concat(..., axis=1)` outer-joins on the union of the
four date indexes, in ascending order). -/
def insertDate (x : ℕ) : List ℕ → List ℕ
  | [] => [x]
  | y :: ys =>
    if x < y then x :: y :: ys
    else if x = y then y :: ys
    else y :: insertDate x ys

/-- Sorted deduplicated list of dates. -/
def sortDedup (l : List ℕ) : List ℕ := l.foldr insertDate []

/-- The union of the four date indexes, ascending. -/
def unionDates (w t r s : Series) : List ℕ :=
  sortDedup (w.map Prod.fst ++ t.map Prod.fst ++ r.map Prod.fst ++ s.map Prod.fst)

/-- One row of the merged frame produced by `_merge_series` after
`dropna()` and the two derived columns (lines 175-178). -/
structure MergedRow where
  date : ℕ
  fed_assets : ℚ
  tga_balance : ℚ
  rrp_balance : ℚ
  sp500 : ℚ
  rrp_balance_millions : ℚ
  net_liquidity : ℚ
deriving DecidableEq

/-- Build one surviving row: the auxiliary millions column is
`rrp_balance * 1000` (line 175) and
`net_liquidity = fed_assets - tga_balance - rrp_balance_millions`
(lines 176-178). -/
def mkRow (d : ℕ) (fv tv rv sv : ℚ) : MergedRow :=
  { date := d, fed_assets := fv, tga_balance := tv, rrp_balance := rv
    sp500 := sv, rrp_balance_millions := rv * 1000
    net_liquidity := fv - tv - rv * 1000 }

/-- The row-building loop of `_merge_series`: walk the ascending union of
dates carrying the last seen cell of each column (`ffill`), keep only the
rows in which all four columns have a value (`dropna`), and attach the two
derived columns to each surviving row. -/
def mergeRows (w t r s : Series) :
    List ℕ → Option ℚ → Option ℚ → Option ℚ → Option ℚ → List MergedRow
  | [], _, _, _, _ => []
  | d :: ds, cw, ct, cr, cs =>
    let fv := ffillCell w d cw
    let tv := ffillCell t d ct
    let rv := ffillCell r d cr
    let sv := ffillCell s d cs
    let rest := mergeRows w t r s ds fv tv rv sv
    match fv, tv, rv, sv with
    | some f, some tg, some rr, some sp => mkRow d f tg rr sp :: rest
    | _, _, _, _ => rest

/-- `fred_data._merge_series`: outer-join the four series on date,
forward-fill, drop incomplete rows, add the derived columns. -/
def mergeSeries (w t r s : Series) : List MergedRow :=
  mergeRows w t r s (unionDates w t r s) Option.none Option.none Option.none Option.none

/-- Specification-side description of one merged row at date `d`: the
forward-filled last known value of every series at `d`, dropped when any
series has no value yet. -/
def rowSpec (w t r s : Series) (d : ℕ) : Option MergedRow :=
  match lastValueLE w d, lastValueLE t d, lastValueLE r d, lastValueLE s d with
  | some f, some tg, some rr, some sp => some (mkRow d f tg rr sp)
  | _, _, _, _ => Option.none

end FredData

namespace FredData

/-- `fred_data._fmt_compact`: compact `$`-prefixed T/B/M rendering (the
`decimals` parameter is always used at its default of 2). -/
def fmtCompactFred (v : ℚ) : String :=
  let a := |v|
  if a ≥ 1000000000000 then "$" ++ fmtFloat (v / 1000000000000) 2 ++ "T"
  else if a ≥ 1000000000 then "$" ++ fmtFloat (v / 1000000000) 2 ++ "B"
  else if a ≥ 1000000 then "$" ++ fmtFloat (v / 1000000) 2 ++ "M"
  else "$" ++ fmtNumber v 0

/-- `_calc_change` inside `get_liquidity_data` (lines 249-252): note the
denominator is `abs(prev)`, not `prev`. -/
def calcChange (curr prev : ℚ) : ℚ :=
  if prev = 0 then 0 else (curr - prev) / |prev| * 100

/-- `fred_data.LiquidityData` (TypedDict). -/
structure LiquidityData where
  fed_assets : ℚ
  fed_assets_str : String
  tga_balance : ℚ
  tga_balance_str : String
  rrp_balance : ℚ
  rrp_balance_str : String
  net_liquidity : ℚ
  net_liquidity_str : String
  sp500 : ℚ
  sp500_str : String
  fed_assets_change : ℚ
  tga_change : ℚ
  rrp_change : ℚ
  net_liquidity_change : ℚ
  sp500_change : ℚ
deriving DecidableEq

/-- `fred_data.LiquidityHistoryPoint` (TypedDict); the date is a day
ordinal here, standing for the `"%Y-%m-%d"` string of the source. -/
structure LiquidityHistoryPoint where
  date : ℕ
  fed_assets : ℚ
  tga_balance : ℚ
  rrp_balance : ℚ
  net_liquidity : ℚ
  sp500 : ℚ
deriving DecidableEq

/-- One history point from a merged row (`get_liquidity_data` lines
274-284): millions-denominated columns scaled by 1,000,000, the
billions-denominated RRP column by 1,000,000,000, the index level as is. -/
def scaleRow (row : MergedRow) : LiquidityHistoryPoint :=
  { date := row.date
    fed_assets := row.fed_assets * 1000000
    tga_balance := row.tga_balance * 1000000
    rrp_balance := row.rrp_balance * 1000000000
    net_liquidity := row.net_liquidity * 1000000
    sp500 := row.sp500 }

/-- The snapshot built from the merged table (`get_liquidity_data` lines
231-270): the last row, compared against the row six positions from the
end (`iloc[-6]`) when more than five rows exist, else the first row. -/
def liqSnapshot (merged : List MergedRow) (latest : MergedRow) : LiquidityData :=
  let prevWeek :=
    if 5 < merged.length then merged.getD (merged.length - 6) latest
    else merged.headD latest
  let fed := latest.fed_assets * 1000000
  let tga := latest.tga_balance * 1000000
  let rrp := latest.rrp_balance * 1000000000
  let net := latest.net_liquidity * 1000000
  let sp := latest.sp500
  let pFed := prevWeek.fed_assets * 1000000
  let pTga := prevWeek.tga_balance * 1000000
  let pRrp := prevWeek.rrp_balance * 1000000000
  let pNet := prevWeek.net_liquidity * 1000000
  let pSp := prevWeek.sp500
  { fed_assets := fed, fed_assets_str := fmtCompactFred fed
    tga_balance := tga, tga_balance_str := fmtCompactFred tga
    rrp_balance := rrp, rrp_balance_str := fmtCompactFred rrp
    net_liquidity := net, net_liquidity_str := fmtCompactFred net
    sp500 := sp, sp500_str := fmtNumber sp 2
    fed_assets_change := calcChange fed pFed
    tga_change := calcChange tga pTga
    rrp_change := calcChange rrp pRrp
    net_liquidity_change := calcChange net pNet
    sp500_change := calcChange sp pSp }

/-- The module-level `_LiquidityCache` entry. -/
structure LiqCacheEntry where
  fetched_at : ℚ
  data : LiquidityData
  history : List LiquidityHistoryPoint
  last_updated : String
deriving DecidableEq

/-- The failures `get_liquidity_data` can surface: the two distinct
`ValueError`s it raises itself, a propagated transport/parsing exception
from `_fetch_fred_series`, and the `KeyError` that `_merge_series` raises
at `set_index("date")` (line 158) when a successfully fetched series has
zero usable records — `_fetch_fred_series` then returns a column-less
empty `DataFrame` (line 140), so the crash happens before the
`merged.empty` check at line 228 is ever reached. -/
inductive LiqError where
  | missingApiKey : LiqError
  | emptyMerge : LiqError
  | fetchFailure : LiqError
  | keyError : LiqError
deriving DecidableEq

/-- The message attached to each raised `ValueError` (source lines
214-217 and 229); the propagated transport exception and the pandas
`KeyError` carry none of their own here. -/
def liqErrorMessage : LiqError → String
  | .missingApiKey =>
    "FRED_API_KEY 환경변수를 설정해주세요. 무료 API 키 발급: https://fred.stlouisfed.org/docs/api/api_key.html"
  | .emptyMerge => "FRED 데이터를 병합할 수 없습니다."
  | .fetchFailure => ""
  | .keyError => ""

/-- The remediation URL contained in the missing-credential message. -/
def remediationUrl : String :=
  "https://fred.stlouisfed.org/docs/api/api_key.html"

/-- `key = api_key or FRED_API_KEY` (line 212): the argument when it is a
truthy string, else the environment value. -/
def resolveKey (apiKey : Option String) (envKey : String) : String :=
  match apiKey with
  | some s => if s = "" then envKey else s
  | Option.none => envKey

/-- Oracle for the four `_fetch_fred_series` calls; `Except.error ()`
stands for a raised transport/parsing exception. -/
structure LiqFetch where
  walcl : Except Unit Series
  wdtgal : Except Unit Series
  rrpontsyd : Except Unit Series
  sp500 : Except Unit Series

/-- Result of one `get_liquidity_data` call: the outcome (the returned
4-tuple or the raised error), the cache state after the call, and how many
upstream fetch calls were made. -/
structure LiqResult where
  outcome : Except LiqError (LiquidityData × List LiquidityHistoryPoint × String × Bool)
  cacheAfter : Option LiqCacheEntry
  fetchCalls : ℕ

/-- The cache-validity guard of `get_liquidity_data` (line 204). -/
def liqHit : Option LiqCacheEntry → ℚ → ℚ → Bool
  | some c, nowE, ttl => decide (nowE - c.fetched_at < ttl)
  | Option.none, _, _ => false

/-- `fred_data.get_liquidity_data`, as a function of the explicit cache
state, the current datetime, the TTL, the `api_key` argument, the
`FRED_API_KEY` environment value and the fetch oracle. -/
def getLiquidityData (cache : Option LiqCacheEntry) (now : PyDateTime)
    (ttl : ℚ) (apiKey : Option String) (envKey : String) (f : LiqFetch) :
    LiqResult :=
  match cache with
  | some c =>
    if now.epoch - c.fetched_at < ttl then
      { outcome := .ok (c.data, c.history, c.last_updated, true)
        cacheAfter := some c
        fetchCalls := 0 }
    else liqRefresh cache now apiKey envKey f
  | Option.none => liqRefresh cache now apiKey envKey f
where
  /-- The cache-miss tail (lines 212-295). -/
  liqRefresh (cache : Option LiqCacheEntry) (now : PyDateTime)
      (apiKey : Option String) (envKey : String) (f : LiqFetch) : LiqResult :=
    let key := resolveKey apiKey envKey
    if key = "" then
      { outcome := .error .missingApiKey, cacheAfter := cache, fetchCalls := 0 }
    else
      match f.walcl with
      | .error _ => { outcome := .error .fetchFailure, cacheAfter := cache, fetchCalls := 1 }
      | .ok w =>
        match f.wdtgal with
        | .error _ => { outcome := .error .fetchFailure, cacheAfter := cache, fetchCalls := 2 }
        | .ok t =>
          match f.rrpontsyd with
          | .error _ => { outcome := .error .fetchFailure, cacheAfter := cache, fetchCalls := 3 }
          | .ok r =>
            match f.sp500 with
            | .error _ => { outcome := .error .fetchFailure, cacheAfter := cache, fetchCalls := 4 }
            | .ok s =>
              -- a zero-record series arrives as a column-less empty frame
              -- and `_merge_series` raises `KeyError` at `set_index("date")`
              -- (line 158) before any further step
              if w = [] ∨ t = [] ∨ r = [] ∨ s = [] then
                { outcome := .error .keyError, cacheAfter := cache, fetchCalls := 4 }
              else
              let merged := mergeSeries w t r s
              match merged.getLast? with
              | Option.none =>
                { outcome := .error .emptyMerge, cacheAfter := cache, fetchCalls := 4 }
              | some latest =>
                let data := liqSnapshot merged latest
                let history := merged.map scaleRow
                { outcome := .ok (data, history, now.kst, false)
                  cacheAfter := some ⟨now.epoch, data, history, now.kst⟩
                  fetchCalls := 4 }

end FredData

namespace MarketData

/-- A generic probe chain over candidate field names, as the source writes
them: `get(k1) or get(k2) or ... or get(kn)`. -/
def probeChain (p : Payload) : List String → PyVal
  | [] => PyVal.none
  | [k] => payloadGet p k
  | k :: ks => pyOr (payloadGet p k) (probeChain p ks)

/-- Specification-side description of what such a chain computes: the
value of the first candidate whose payload value is truthy; when no
candidate is truthy, the (possibly falsy or missing) value of the last
candidate. -/
def probeSpec (p : Payload) (ks : List String) : PyVal :=
  match ks.find? (fun k => (payloadGet p k).truthy) with
  | some k => payloadGet p k
  | Option.none =>
    match ks.getLast? with
    | some k => payloadGet p k
    | Option.none => PyVal.none

end MarketData

section Claims

open MarketData FredData

/-- Helper: the written-out `or` chains compute "first truthy candidate,
else the last candidate's value". -/
theorem probeChain_eq_probeSpec (p : Payload) :
    ∀ ks : List String, probeChain p ks = probeSpec p ks
  | [] => by simp [probeChain, probeSpec]
  | [k] => by
    by_cases h : (payloadGet p k).truthy <;>
      simp [probeChain, probeSpec, pyOr, List.find?, h]
  | k :: k' :: ks => by
    by_cases h : (payloadGet p k).truthy
    · simp [probeChain, probeSpec, pyOr, List.find?, h]
    · have ih := probeChain_eq_probeSpec p (k' :: ks)
      have hfind : List.find? (fun k => (payloadGet p k).truthy) (k :: k' :: ks)
          = List.find? (fun k => (payloadGet p k).truthy) (k' :: ks) :=
        List.find?_cons_of_neg _ h
      simp only [probeChain, pyOr, h, if_false]
      rw [ih]
      unfold probeSpec
      rw [hfind, List.getLast?_cons_cons]
      simp

/-- C4: the percent change used by the indicator and stock-quote
providers equals `(last - previous) / previous * 100` for nonzero
`previous`, is the guarded `0` when `previous = 0` (total, no
division-by-zero exception), `change(110, 100)` formats as `+10.00%`, and
a basket indicator's change field is that formatted percent change. -/
theorem C4_percent_change :
    (∀ last prev : ℚ, prev ≠ 0 →
        pctChangeGuarded last prev = (last - prev) / prev * 100)
    ∧ (∀ last : ℚ, pctChangeGuarded last 0 = 0)
    ∧ fmtPct (pctChangeGuarded 110 100) 2 = "+10.00%"
    ∧ pctChangeGuarded 100 0 = 0
    ∧ (∀ (qf : String → Option (ℚ × ℚ)) (name sym : String) (dec : ℕ)
        (px : String) (last prev : ℚ), qf sym = some (last, prev) →
        (mkFromQuote qf name sym dec px).change
          = fmtPct (pctChangeGuarded last prev) 2) := by
  refine ⟨?_, ?_, by decide!, by decide!, ?_⟩
  · intro last prev h
    simp [pctChangeGuarded, h]
  · intro last
    simp [pctChangeGuarded]
  · intro qf name sym dec px last prev h
    simp [mkFromQuote, h]

/-- C4 witness: the theorem applied at `last = 110`, `prev = 100`. -/
theorem C4_witness :
    ((100 : ℚ) ≠ 0)
    ∧ pctChangeGuarded 110 100 = (110 - 100) / 100 * 100 :=
  ⟨by decide!, C4_percent_change.1 110 100 (by decide!)⟩

/-- C5 counterexample: the liquidity provider's `_calc_change` divides by
`abs(prev)`, so at `curr = 0`, `prev = -1` it returns `+100` while the
§4.1 formula returns `-100`; the two disagree. -/
theorem C5_counterexample :
    calcChange 0 (-1) = 100
    ∧ pctChangeGuarded 0 (-1) = -100
    ∧ calcChange 0 (-1) ≠ pctChangeGuarded 0 (-1) :=
  ⟨by decide!, by decide!, by decide!⟩

/-- C5 (amended): `_calc_change` agrees with the §4.1 percent-change
formula whenever the previous value is non-negative (in particular on the
zero-previous guard); they differ only for negative previous values. -/
theorem C5_calc_change_nonneg (curr prev : ℚ) (h : 0 ≤ prev) :
    calcChange curr prev = pctChangeGuarded curr prev := by
  unfold calcChange pctChangeGuarded
  by_cases hz : prev = 0
  · simp [hz]
  · have habs : |prev| = prev := abs_of_pos (lt_of_le_of_ne h (Ne.symm hz))
    simp [hz, habs]

/-- C5 witness: the amended theorem applied at `curr = 110`, `prev = 100`. -/
theorem C5_witness :
    ((0 : ℚ) ≤ 100) ∧ calcChange 110 100 = pctChangeGuarded 110 100 :=
  ⟨by decide!, C5_calc_change_nonneg 110 100 (by decide!)⟩

/-- C6: for every basket indicator built from an available (last, prev)
pair — any values, including zero or negative previous — the sign flag is
true iff the computed change is non-negative. -/
theorem C6_sign_flag (qf : String → Option (ℚ × ℚ)) (name sym : String)
    (dec : ℕ) (px : String) (last prev : ℚ) (h : qf sym = some (last, prev)) :
    (mkFromQuote qf name sym dec px).is_positive = true
      ↔ pctChangeGuarded last prev ≥ 0 := by
  simp [mkFromQuote, h]

/-- C6 witness: the theorem applied at a concrete quote table. -/
theorem C6_witness :
    ((fun _ : String => some ((110 : ℚ), (100 : ℚ))) "^KS11" = some (110, 100))
    ∧ ((mkFromQuote (fun _ => some (110, 100)) "KOSPI" "^KS11" 2 "").is_positive = true
        ↔ pctChangeGuarded 110 100 ≥ 0) :=
  ⟨rfl, C6_sign_flag _ "KOSPI" "^KS11" 2 "" 110 100 rfl⟩

/-- C9 counterexample: with `last_price` present but `0` (falsy) and
`regularMarketPrice` present with `5`, the chain returns `5`, not the
higher-priority present value `0` — "present with any value" fails. -/
theorem C9_counterexample :
    lastOf [("last_price", PyVal.num 0), ("regularMarketPrice", PyVal.num 5)]
      = PyVal.num 5
    ∧ payloadGet [("last_price", PyVal.num 0), ("regularMarketPrice", PyVal.num 5)]
        "last_price" = PyVal.num 0
    ∧ PyVal.num 5 ≠ PyVal.num 0 := by
  refine ⟨by decide!, by decide!, by decide!⟩

/-- C9 (amended): each extraction chain probes its candidate names in
priority order and uses the first one whose present value is truthy;
candidates that are absent or bound to a falsy value (`None`, `0`, `""`)
are skipped, and when no candidate is truthy the last candidate's
(possibly missing) value is used. -/
theorem C9_probe_first_truthy (p : Payload) :
    lastOf p = probeSpec p
      ["last_price", "lastPrice", "regularMarketPrice", "currentPrice"]
    ∧ prevOf p = probeSpec p
      ["previous_close", "previousClose", "regularMarketPreviousClose"]
    ∧ volumeOf p = probeSpec p
      ["last_volume", "lastVolume", "regularMarketVolume", "volume"]
    ∧ marketCapOf p = probeSpec p ["market_cap", "marketCap"] := by
  refine ⟨?_, ?_, ?_, ?_⟩ <;>
    rw [← probeChain_eq_probeSpec] <;> rfl

end Claims

section Claims2

open MarketData FredData

/-- Helper: the hit guard for a populated stock cache slot. -/
theorem stockHit_some_iff (c : StockCacheEntry) (symU : String) (nowE ttl : ℚ) :
    stockHit (some c) symU nowE ttl = true
      ↔ (c.symbol = symU ∧ nowE - c.fetched_at < ttl) := by
  simp [stockHit]

/-- Helper: when the hit guard fails, `get_stock_quote` runs the refresh
tail on the normalized symbol. -/
theorem getStockQuote_eq_refresh (cache : Option StockCacheEntry)
    (now : PyDateTime) (symbol : String) (ttl : ℚ) (f : StockFetch)
    (h : stockHit cache (pyUpper (pyStrip symbol)) now.epoch ttl = false) :
    getStockQuote cache now symbol ttl f
      = stockRefresh now (pyUpper (pyStrip symbol)) f := by
  cases cache with
  | none => rfl
  | some c =>
    simp only [stockHit, Bool.and_eq_false_iff, decide_eq_false_iff_not] at h
    simp only [getStockQuote]
    rw [if_neg]
    rintro ⟨h1, h2⟩
    rcases h with h | h
    · exact h h1
    · exact h h2

/-- C7: the requested symbol is trimmed and upper-cased; a cache hit
requires both TTL validity and the cached symbol equaling the normalized
request; after any call the single slot holds the most recently requested
normalized symbol together with the returned quote; and a second call with
a normalized-distinct symbol is a full refresh (never serves the first
symbol's cached quote). -/
theorem C7_symbol_cache (cache : Option StockCacheEntry)
    (nowA nowB : PyDateTime) (symA symB : String) (ttl : ℚ)
    (fA fB : StockFetch)
    (hAB : pyUpper (pyStrip symA) ≠ pyUpper (pyStrip symB)) :
    ((getStockQuote cache nowA symA ttl fA).is_cached = true
        ↔ stockHit cache (pyUpper (pyStrip symA)) nowA.epoch ttl = true)
    ∧ (∃ c, (getStockQuote cache nowA symA ttl fA).cacheAfter = some c
        ∧ c.symbol = pyUpper (pyStrip symA)
        ∧ c.quote = (getStockQuote cache nowA symA ttl fA).quote)
    ∧ getStockQuote (getStockQuote cache nowA symA ttl fA).cacheAfter
        nowB symB ttl fB
      = stockRefresh nowB (pyUpper (pyStrip symB)) fB := by
  have h2 : ∃ c, (getStockQuote cache nowA symA ttl fA).cacheAfter = some c
      ∧ c.symbol = pyUpper (pyStrip symA)
      ∧ c.quote = (getStockQuote cache nowA symA ttl fA).quote := by
    cases cache with
    | none =>
      refine ⟨⟨nowA.epoch, pyUpper (pyStrip symA),
        buildStockQuote fA.payload fA.src, nowA.kst⟩, ?_, ?_, ?_⟩
      · simp [getStockQuote, stockRefresh]
      · rfl
      · simp [getStockQuote, stockRefresh]
    | some c =>
      by_cases hc : c.symbol = pyUpper (pyStrip symA)
          ∧ nowA.epoch - c.fetched_at < ttl
      · refine ⟨c, ?_, hc.1, ?_⟩ <;> simp [getStockQuote, hc]
      · refine ⟨⟨nowA.epoch, pyUpper (pyStrip symA),
          buildStockQuote fA.payload fA.src, nowA.kst⟩, ?_, rfl, ?_⟩ <;>
          simp [getStockQuote, hc, stockRefresh]
  refine ⟨?_, h2, ?_⟩
  · cases cache with
    | none => simp [getStockQuote, stockRefresh, stockHit]
    | some c =>
      by_cases hc : c.symbol = pyUpper (pyStrip symA)
          ∧ nowA.epoch - c.fetched_at < ttl
      · simp [getStockQuote, hc, stockHit]
      · simp [getStockQuote, hc, stockRefresh, stockHit]
  · obtain ⟨c, hca, hsym, -⟩ := h2
    rw [hca]
    apply getStockQuote_eq_refresh
    have hne : c.symbol ≠ pyUpper (pyStrip symB) := by
      rw [hsym]; exact hAB
    simp [stockHit, hne]

/-- C7 witness: concrete two-call scenario, `" nvda "` then `"aapl"`. -/
theorem C7_witness :
    pyUpper (pyStrip " nvda ") ≠ pyUpper (pyStrip "aapl")
    ∧ (((getStockQuote Option.none ⟨0, "t1"⟩ " nvda " 300 ⟨[], "yfinance"⟩).is_cached = true
        ↔ stockHit Option.none (pyUpper (pyStrip " nvda ")) (0 : ℚ) 300 = true)
      ∧ (∃ c, (getStockQuote Option.none ⟨0, "t1"⟩ " nvda " 300 ⟨[], "yfinance"⟩).cacheAfter = some c
          ∧ c.symbol = pyUpper (pyStrip " nvda ")
          ∧ c.quote = (getStockQuote Option.none ⟨0, "t1"⟩ " nvda " 300 ⟨[], "yfinance"⟩).quote)
      ∧ getStockQuote (getStockQuote Option.none ⟨0, "t1"⟩ " nvda " 300 ⟨[], "yfinance"⟩).cacheAfter
          ⟨60, "t2"⟩ "aapl" 300 ⟨[], "yfinance"⟩
        = stockRefresh ⟨60, "t2"⟩ (pyUpper (pyStrip "aapl")) ⟨[], "yfinance"⟩) :=
  ⟨by decide!, C7_symbol_cache Option.none ⟨0, "t1"⟩ ⟨60, "t2"⟩ " nvda " "aapl"
    300 ⟨[], "yfinance"⟩ ⟨[], "yfinance"⟩ (by decide!)⟩

end Claims2

section Claims3

open MarketData FredData

/-- C8 counterexample: on an unresolvable payload the returned quote's
`change_pct` field is the empty string, not the `"—"` placeholder marker —
so not every formatted field is the placeholder. -/
theorem C8_counterexample :
    (getStockQuote Option.none ⟨0, "t"⟩ "NVDA" 300 ⟨[], "yfinance"⟩).quote.change_pct = ""
    ∧ ("" : String) ≠ "—" := by
  refine ⟨by decide!, by decide!⟩

/-- C8 (amended): when the probe chains resolve no last price or no
previous close, the call does not raise: it returns the degenerate quote
whose formatted fields are the placeholder marker — except `change_pct`,
which is the empty string — with `is_positive = true`, and stores that
quote in the single-slot cache keyed by the normalized symbol exactly as a
successful result would be. -/
theorem C8_degenerate_cached (cache : Option StockCacheEntry)
    (now : PyDateTime) (symbol : String) (ttl : ℚ) (f : StockFetch)
    (hmiss : stockHit cache (pyUpper (pyStrip symbol)) now.epoch ttl = false)
    (hun : lastOf f.payload = PyVal.none ∨ prevOf f.payload = PyVal.none) :
    (getStockQuote cache now symbol ttl f).quote = placeholderQuote f.src
    ∧ (placeholderQuote f.src).price = "—"
    ∧ (placeholderQuote f.src).change = "—"
    ∧ (placeholderQuote f.src).change_value = "—"
    ∧ (placeholderQuote f.src).volume = "—"
    ∧ (placeholderQuote f.src).market_cap = "—"
    ∧ (placeholderQuote f.src).change_pct = ""
    ∧ (placeholderQuote f.src).is_positive = true
    ∧ (getStockQuote cache now symbol ttl f).cacheAfter
        = some ⟨now.epoch, pyUpper (pyStrip symbol), placeholderQuote f.src, now.kst⟩ := by
  have hq : buildStockQuote f.payload f.src = placeholderQuote f.src := by
    simp only [buildStockQuote]
    rw [if_pos hun]
  rw [getStockQuote_eq_refresh _ _ _ _ _ hmiss]
  refine ⟨by simp [stockRefresh, hq], rfl, rfl, rfl, rfl, rfl, rfl, rfl, ?_⟩
  simp [stockRefresh, hq]

/-- C8 witness: the amended theorem applied at an empty cache, an empty
payload and the symbol `"NVDA"`. -/
theorem C8_witness :
    stockHit Option.none (pyUpper (pyStrip "NVDA")) (0 : ℚ) 300 = false
    ∧ (lastOf ([] : Payload) = PyVal.none ∨ prevOf ([] : Payload) = PyVal.none)
    ∧ (getStockQuote Option.none ⟨0, "ts"⟩ "NVDA" 300 ⟨[], "yfinance"⟩).quote
        = placeholderQuote "yfinance" :=
  ⟨by decide!, Or.inl (by decide!),
    (C8_degenerate_cached Option.none ⟨0, "ts"⟩ "NVDA" 300 ⟨[], "yfinance"⟩
      (by decide!) (Or.inl (by decide!))).1⟩

end Claims3

section Claims4

open MarketData FredData

/-- Helper: a failed indicator hit guard runs the refresh tail. -/
theorem getIndicators_miss (cache : Option IndCacheEntry) (now : PyDateTime)
    (ttl : ℚ) (f : IndFetch) (h : indHit cache now.epoch ttl = false) :
    getIndicators cache now ttl f = indRefresh now f := by
  cases cache with
  | none => rfl
  | some c =>
    simp only [indHit, decide_eq_false_iff_not] at h
    simp [getIndicators, h]

/-- Helper: a valid indicator cache entry is served unchanged, with no
upstream fetch. -/
theorem getIndicators_hit (c : IndCacheEntry) (now : PyDateTime) (ttl : ℚ)
    (f : IndFetch) (h : now.epoch - c.fetched_at < ttl) :
    getIndicators (some c) now ttl f
      = { indicators := c.indicators, last_updated := c.last_updated
          is_cached := true, cacheAfter := some c, fetchCalls := 0 } := by
  simp [getIndicators, h]

/-- Helper: a valid stock cache entry matching the normalized symbol is
served unchanged, with no upstream fetch. -/
theorem getStockQuote_hit (c : StockCacheEntry) (now : PyDateTime)
    (symbol : String) (ttl : ℚ) (f : StockFetch)
    (h1 : c.symbol = pyUpper (pyStrip symbol))
    (h2 : now.epoch - c.fetched_at < ttl) :
    getStockQuote (some c) now symbol ttl f
      = { quote := c.quote, last_updated := c.last_updated
          is_cached := true, cacheAfter := some c, fetchCalls := 0 } := by
  simp [getStockQuote, h1, h2]

/-- Helper: a failed liquidity hit guard runs the refresh tail. -/
theorem getLiquidityData_miss (cache : Option LiqCacheEntry)
    (now : PyDateTime) (ttl : ℚ) (apiKey : Option String) (envKey : String)
    (f : LiqFetch) (h : liqHit cache now.epoch ttl = false) :
    getLiquidityData cache now ttl apiKey envKey f
      = getLiquidityData.liqRefresh cache now apiKey envKey f := by
  cases cache with
  | none => rfl
  | some c =>
    simp only [liqHit, decide_eq_false_iff_not] at h
    simp [getLiquidityData, h]

/-- Helper: a valid liquidity cache entry is served unchanged, with no
upstream fetch. -/
theorem getLiquidityData_hit (c : LiqCacheEntry) (now : PyDateTime)
    (ttl : ℚ) (apiKey : Option String) (envKey : String) (f : LiqFetch)
    (h : now.epoch - c.fetched_at < ttl) :
    getLiquidityData (some c) now ttl apiKey envKey f
      = { outcome := .ok (c.data, c.history, c.last_updated, true)
          cacheAfter := some c, fetchCalls := 0 } := by
  simp [getLiquidityData, h]

/-- Helper: with an empty first series, every row of the loop misses its
first column (the carry starts at `none` and never advances), so no row
survives. -/
theorem mergeRows_nil_w (t r s : Series) :
    ∀ (ds : List ℕ) (ct cr cs : Option ℚ),
      mergeRows [] t r s ds Option.none ct cr cs = []
  | [], _, _, _ => rfl
  | d :: ds, ct, cr, cs => by
    simp only [mergeRows]
    have h0 : ffillCell ([] : Series) d Option.none = Option.none := rfl
    rw [h0]
    rcases ffillCell t d ct with _ | tv <;>
      rcases ffillCell r d cr with _ | rv <;>
        rcases ffillCell s d cs with _ | sv <;>
          exact mergeRows_nil_w t r s ds _ _ _

/-- Helper: likewise for an empty second series. -/
theorem mergeRows_nil_t (w r s : Series) :
    ∀ (ds : List ℕ) (cw cr cs : Option ℚ),
      mergeRows w [] r s ds cw Option.none cr cs = []
  | [], _, _, _ => rfl
  | d :: ds, cw, cr, cs => by
    simp only [mergeRows]
    have h0 : ffillCell ([] : Series) d Option.none = Option.none := rfl
    rw [h0]
    rcases ffillCell w d cw with _ | fv <;>
      rcases ffillCell r d cr with _ | rv <;>
        rcases ffillCell s d cs with _ | sv <;>
          exact mergeRows_nil_t w r s ds _ _ _

/-- Helper: likewise for an empty third series. -/
theorem mergeRows_nil_r (w t s : Series) :
    ∀ (ds : List ℕ) (cw ct cs : Option ℚ),
      mergeRows w t [] s ds cw ct Option.none cs = []
  | [], _, _, _ => rfl
  | d :: ds, cw, ct, cs => by
    simp only [mergeRows]
    have h0 : ffillCell ([] : Series) d Option.none = Option.none := rfl
    rw [h0]
    rcases ffillCell w d cw with _ | fv <;>
      rcases ffillCell t d ct with _ | tv <;>
        rcases ffillCell s d cs with _ | sv <;>
          exact mergeRows_nil_r w t s ds _ _ _

/-- Helper: likewise for an empty fourth series. -/
theorem mergeRows_nil_s (w t r : Series) :
    ∀ (ds : List ℕ) (cw ct cr : Option ℚ),
      mergeRows w t r [] ds cw ct cr Option.none = []
  | [], _, _, _ => rfl
  | d :: ds, cw, ct, cr => by
    simp only [mergeRows]
    have h0 : ffillCell ([] : Series) d Option.none = Option.none := rfl
    rw [h0]
    rcases ffillCell w d cw with _ | fv <;>
      rcases ffillCell t d ct with _ | tv <;>
        rcases ffillCell r d cr with _ | rv <;>
          exact mergeRows_nil_s w t r ds _ _ _

/-- Helper: a nonempty merged table forces all four input series to be
nonempty (so the success path never meets the column-less-frame crash). -/
theorem series_ne_nil_of_merge (w t r s : Series) (latest : MergedRow)
    (hlast : (mergeSeries w t r s).getLast? = some latest) :
    ¬(w = [] ∨ t = [] ∨ r = [] ∨ s = []) := by
  intro hor
  rcases hor with rfl | rfl | rfl | rfl
  · rw [mergeSeries, mergeRows_nil_w] at hlast
    exact Option.noConfusion hlast
  · rw [mergeSeries, mergeRows_nil_t] at hlast
    exact Option.noConfusion hlast
  · rw [mergeSeries, mergeRows_nil_r] at hlast
    exact Option.noConfusion hlast
  · rw [mergeSeries, mergeRows_nil_s] at hlast
    exact Option.noConfusion hlast

/-- Helper: the liquidity refresh tail on the success path: resolved key,
four successful fetches, non-empty merged table. -/
theorem liqRefresh_success (cache : Option LiqCacheEntry) (now : PyDateTime)
    (apiKey : Option String) (envKey : String) (f : LiqFetch)
    (w t r s : Series) (latest : MergedRow)
    (hk : resolveKey apiKey envKey ≠ "")
    (hw : f.walcl = .ok w) (ht : f.wdtgal = .ok t)
    (hr : f.rrpontsyd = .ok r) (hs : f.sp500 = .ok s)
    (hlast : (mergeSeries w t r s).getLast? = some latest) :
    getLiquidityData.liqRefresh cache now apiKey envKey f
      = { outcome := .ok (liqSnapshot (mergeSeries w t r s) latest,
            (mergeSeries w t r s).map scaleRow, now.kst, false)
          cacheAfter := some ⟨now.epoch, liqSnapshot (mergeSeries w t r s) latest,
            (mergeSeries w t r s).map scaleRow, now.kst⟩
          fetchCalls := 4 } := by
  have hne := series_ne_nil_of_merge w t r s latest hlast
  simp only [getLiquidityData.liqRefresh, hw, ht, hr, hs, hlast, if_neg hk,
    if_neg hne]

/-- C2: for each provider, a second call within the TTL window after a
fetch populated the cache returns the identical payload, reports
`is_cached = true`, and performs zero upstream fetch calls (for the stock
provider, with an equally-normalized symbol requested). -/
theorem C2_cached_second_call :
    (∀ (c0 : Option IndCacheEntry) (t1 t2 : PyDateTime) (ttl : ℚ)
        (f1 f2 : IndFetch),
      indHit c0 t1.epoch ttl = false →
      t2.epoch - t1.epoch < ttl →
      getIndicators (getIndicators c0 t1 ttl f1).cacheAfter t2 ttl f2
        = { indicators := (getIndicators c0 t1 ttl f1).indicators
            last_updated := (getIndicators c0 t1 ttl f1).last_updated
            is_cached := true
            cacheAfter := (getIndicators c0 t1 ttl f1).cacheAfter
            fetchCalls := 0 })
    ∧ (∀ (c0 : Option StockCacheEntry) (t1 t2 : PyDateTime)
        (sym1 sym2 : String) (ttl : ℚ) (f1 f2 : StockFetch),
      stockHit c0 (pyUpper (pyStrip sym1)) t1.epoch ttl = false →
      pyUpper (pyStrip sym2) = pyUpper (pyStrip sym1) →
      t2.epoch - t1.epoch < ttl →
      getStockQuote (getStockQuote c0 t1 sym1 ttl f1).cacheAfter t2 sym2 ttl f2
        = { quote := (getStockQuote c0 t1 sym1 ttl f1).quote
            last_updated := (getStockQuote c0 t1 sym1 ttl f1).last_updated
            is_cached := true
            cacheAfter := (getStockQuote c0 t1 sym1 ttl f1).cacheAfter
            fetchCalls := 0 })
    ∧ (∀ (c0 : Option LiqCacheEntry) (t1 t2 : PyDateTime) (ttl : ℚ)
        (key1 key2 : Option String) (env1 env2 : String) (f1 f2 : LiqFetch)
        (w t r s : Series) (latest : MergedRow),
      liqHit c0 t1.epoch ttl = false →
      resolveKey key1 env1 ≠ "" →
      f1.walcl = .ok w → f1.wdtgal = .ok t →
      f1.rrpontsyd = .ok r → f1.sp500 = .ok s →
      (mergeSeries w t r s).getLast? = some latest →
      t2.epoch - t1.epoch < ttl →
      (getLiquidityData c0 t1 ttl key1 env1 f1).outcome
          = .ok (liqSnapshot (mergeSeries w t r s) latest,
              (mergeSeries w t r s).map scaleRow, t1.kst, false)
        ∧ getLiquidityData (getLiquidityData c0 t1 ttl key1 env1 f1).cacheAfter
            t2 ttl key2 env2 f2
          = { outcome := .ok (liqSnapshot (mergeSeries w t r s) latest,
                (mergeSeries w t r s).map scaleRow, t1.kst, true)
              cacheAfter := (getLiquidityData c0 t1 ttl key1 env1 f1).cacheAfter
              fetchCalls := 0 }) := by
  refine ⟨?_, ?_, ?_⟩
  · intro c0 t1 t2 ttl f1 f2 hmiss helapsed
    rw [getIndicators_miss c0 t1 ttl f1 hmiss]
    exact getIndicators_hit
      ⟨t1.epoch, buildIndicators f1.quotes f1.effrRate f1.effrDate, t1.kst⟩
      t2 ttl f2 helapsed
  · intro c0 t1 t2 sym1 sym2 ttl f1 f2 hmiss hsym helapsed
    rw [getStockQuote_eq_refresh c0 t1 sym1 ttl f1 hmiss]
    exact getStockQuote_hit
      ⟨t1.epoch, pyUpper (pyStrip sym1), buildStockQuote f1.payload f1.src, t1.kst⟩
      t2 sym2 ttl f2 hsym.symm helapsed
  · intro c0 t1 t2 ttl key1 key2 env1 env2 f1 f2 w t r s latest
      hmiss hk hw ht hr hs hlast helapsed
    have hres : getLiquidityData c0 t1 ttl key1 env1 f1
        = { outcome := .ok (liqSnapshot (mergeSeries w t r s) latest,
              (mergeSeries w t r s).map scaleRow, t1.kst, false)
            cacheAfter := some ⟨t1.epoch, liqSnapshot (mergeSeries w t r s) latest,
              (mergeSeries w t r s).map scaleRow, t1.kst⟩
            fetchCalls := 4 } :=
      (getLiquidityData_miss c0 t1 ttl key1 env1 f1 hmiss).trans
        (liqRefresh_success c0 t1 key1 env1 f1 w t r s latest hk hw ht hr hs hlast)
    rw [hres]
    exact ⟨rfl, getLiquidityData_hit
      ⟨t1.epoch, liqSnapshot (mergeSeries w t r s) latest,
        (mergeSeries w t r s).map scaleRow, t1.kst⟩
      t2 ttl key2 env2 f2 helapsed⟩

end Claims4

section Claims5

open MarketData FredData

/-- C2 witness: the indicator conjunct applied at a concrete pair of
calls 60 seconds apart with a 300-second TTL. -/
theorem C2_witness :
    indHit Option.none (PyDateTime.mk 0 "t1").epoch 300 = false
    ∧ (PyDateTime.mk 60 "t2").epoch - (PyDateTime.mk 0 "t1").epoch < 300
    ∧ getIndicators (getIndicators Option.none ⟨0, "t1"⟩ 300
          ⟨fun _ => Option.none, 5, "2025-01-02"⟩).cacheAfter ⟨60, "t2"⟩ 300
          ⟨fun _ => Option.none, 5, "2025-01-02"⟩
      = { indicators := (getIndicators Option.none ⟨0, "t1"⟩ 300
            ⟨fun _ => Option.none, 5, "2025-01-02"⟩).indicators
          last_updated := (getIndicators Option.none ⟨0, "t1"⟩ 300
            ⟨fun _ => Option.none, 5, "2025-01-02"⟩).last_updated
          is_cached := true
          cacheAfter := (getIndicators Option.none ⟨0, "t1"⟩ 300
            ⟨fun _ => Option.none, 5, "2025-01-02"⟩).cacheAfter
          fetchCalls := 0 } :=
  ⟨by decide!, by decide!,
    C2_cached_second_call.1 Option.none ⟨0, "t1"⟩ ⟨60, "t2"⟩ 300
      ⟨fun _ => Option.none, 5, "2025-01-02"⟩
      ⟨fun _ => Option.none, 5, "2025-01-02"⟩ (by decide!) (by decide!)⟩

end Claims5

section Claims6

open MarketData FredData

/-- Helper: every error outcome of the liquidity refresh tail leaves the
cache argument unchanged. -/
theorem liqRefresh_error_keeps_cache (cache : Option LiqCacheEntry)
    (now : PyDateTime) (apiKey : Option String) (envKey : String)
    (f : LiqFetch) (e : LiqError)
    (h : (getLiquidityData.liqRefresh cache now apiKey envKey f).outcome
      = .error e) :
    (getLiquidityData.liqRefresh cache now apiKey envKey f).cacheAfter
      = cache := by
  by_cases hk : resolveKey apiKey envKey = ""
  · simp [getLiquidityData.liqRefresh, hk]
  · cases hw : f.walcl with
    | error u => simp [getLiquidityData.liqRefresh, hk, hw]
    | ok w =>
      cases ht : f.wdtgal with
      | error u => simp [getLiquidityData.liqRefresh, hk, hw, ht]
      | ok t =>
        cases hr : f.rrpontsyd with
        | error u => simp [getLiquidityData.liqRefresh, hk, hw, ht, hr]
        | ok r =>
          cases hs : f.sp500 with
          | error u => simp [getLiquidityData.liqRefresh, hk, hw, ht, hr, hs]
          | ok s =>
            by_cases hor : w = [] ∨ t = [] ∨ r = [] ∨ s = []
            · simp [getLiquidityData.liqRefresh, hk, hw, ht, hr, hs, hor]
            · cases hlast : (mergeSeries w t r s).getLast? with
              | none =>
                simp [getLiquidityData.liqRefresh, hk, hw, ht, hr, hs, hor,
                  hlast]
              | some latest =>
                exfalso
                rw [liqRefresh_success cache now apiKey envKey f w t r s latest
                  hk hw ht hr hs hlast] at h
                exact Except.noConfusion h

end Claims6

section Claims7

open MarketData FredData

/-- C10: a successful non-cached liquidity call returns one history point
per merged row, in the same order, scaled by `scaleRow` (×1,000,000 for
the millions-denominated columns, ×1,000,000,000 for RRP, index level as
is), and the snapshot's five raw numeric values equal the corresponding
values of the last history point. -/
theorem C10_history_snapshot (cache : Option LiqCacheEntry)
    (now : PyDateTime) (ttl : ℚ) (apiKey : Option String) (envKey : String)
    (f : LiqFetch) (w t r s : Series) (latest : MergedRow)
    (hmiss : liqHit cache now.epoch ttl = false)
    (hk : resolveKey apiKey envKey ≠ "")
    (hw : f.walcl = .ok w) (ht : f.wdtgal = .ok t)
    (hr : f.rrpontsyd = .ok r) (hs : f.sp500 = .ok s)
    (hlast : (mergeSeries w t r s).getLast? = some latest) :
    (getLiquidityData cache now ttl apiKey envKey f).outcome
        = .ok (liqSnapshot (mergeSeries w t r s) latest,
            (mergeSeries w t r s).map scaleRow, now.kst, false)
    ∧ ((mergeSeries w t r s).map scaleRow).length = (mergeSeries w t r s).length
    ∧ ((mergeSeries w t r s).map scaleRow).getLast? = some (scaleRow latest)
    ∧ (liqSnapshot (mergeSeries w t r s) latest).fed_assets
        = (scaleRow latest).fed_assets
    ∧ (liqSnapshot (mergeSeries w t r s) latest).tga_balance
        = (scaleRow latest).tga_balance
    ∧ (liqSnapshot (mergeSeries w t r s) latest).rrp_balance
        = (scaleRow latest).rrp_balance
    ∧ (liqSnapshot (mergeSeries w t r s) latest).net_liquidity
        = (scaleRow latest).net_liquidity
    ∧ (liqSnapshot (mergeSeries w t r s) latest).sp500
        = (scaleRow latest).sp500 := by
  refine ⟨?_, List.length_map _ _, ?_, rfl, rfl, rfl, rfl, rfl⟩
  · rw [getLiquidityData_miss cache now ttl apiKey envKey f hmiss,
      liqRefresh_success cache now apiKey envKey f w t r s latest
        hk hw ht hr hs hlast]
  · rw [List.getLast?_map, hlast]
    rfl

/-- C10 witness: the theorem applied at a one-row concrete fixture. -/
theorem C10_witness :
    liqHit Option.none (PyDateTime.mk 0 "t").epoch 3600 = false
    ∧ resolveKey (some "k") "" ≠ ""
    ∧ (mergeSeries [(1, 10)] [(1, 100)] [(1, 2)] [(1, 1000)]).getLast?
        = some (mkRow 1 10 100 2 1000)
    ∧ (getLiquidityData Option.none ⟨0, "t"⟩ 3600 (some "k") ""
        ⟨.ok [(1, 10)], .ok [(1, 100)], .ok [(1, 2)], .ok [(1, 1000)]⟩).outcome
      = .ok (liqSnapshot (mergeSeries [(1, 10)] [(1, 100)] [(1, 2)] [(1, 1000)])
            (mkRow 1 10 100 2 1000),
          (mergeSeries [(1, 10)] [(1, 100)] [(1, 2)] [(1, 1000)]).map scaleRow,
          (PyDateTime.mk 0 "t").kst, false) :=
  ⟨by decide!, by decide!, by decide!,
    (C10_history_snapshot Option.none ⟨0, "t"⟩ 3600 (some "k") ""
      ⟨.ok [(1, 10)], .ok [(1, 100)], .ok [(1, 2)], .ok [(1, 1000)]⟩
      [(1, 10)] [(1, 100)] [(1, 2)] [(1, 1000)] (mkRow 1 10 100 2 1000)
      (by decide!) (by decide!) rfl rfl rfl rfl (by decide!)).1⟩

end Claims7

section Claims8

open FredData

/-- Helper: membership in an ordered dedup insertion. -/
theorem mem_insertDate (x a : ℕ) :
    ∀ l : List ℕ, a ∈ insertDate x l ↔ a = x ∨ a ∈ l
  | [] => by simp [insertDate]
  | y :: ys => by
    by_cases h1 : x < y
    · simp only [insertDate, if_pos h1, List.mem_cons]
    · by_cases h2 : x = y
      · subst h2
        rw [insertDate, if_neg h1, if_pos rfl]
        simp only [List.mem_cons]
        tauto
      · have ih := mem_insertDate x a ys
        simp only [insertDate, if_neg h1, if_neg h2, List.mem_cons, ih]
        tauto

/-- Helper: ordered dedup insertion preserves strict sortedness. -/
theorem pairwise_insertDate (x : ℕ) :
    ∀ l : List ℕ, l.Pairwise (· < ·) → (insertDate x l).Pairwise (· < ·)
  | [], _ => by simp [insertDate]
  | y :: ys, h => by
    rw [List.pairwise_cons] at h
    obtain ⟨hy, hys⟩ := h
    by_cases h1 : x < y
    · rw [insertDate, if_pos h1, List.pairwise_cons]
      refine ⟨?_, ?_⟩
      · intro z hz
        rcases List.mem_cons.mp hz with rfl | hz
        · exact h1
        · exact h1.trans (hy z hz)
      · rw [List.pairwise_cons]
        exact ⟨hy, hys⟩
    · by_cases h2 : x = y
      · rw [insertDate, if_neg h1, if_pos h2, List.pairwise_cons]
        exact ⟨hy, hys⟩
      · have hyx : y < x := by omega
        rw [insertDate, if_neg h1, if_neg h2, List.pairwise_cons]
        refine ⟨?_, pairwise_insertDate x ys hys⟩
        intro z hz
        rcases (mem_insertDate x z ys).mp hz with rfl | hz
        · exact hyx
        · exact hy z hz

/-- Helper: the date union is strictly sorted. -/
theorem pairwise_sortDedup : ∀ l : List ℕ, (sortDedup l).Pairwise (· < ·)
  | [] => List.Pairwise.nil
  | a :: l => pairwise_insertDate a (sortDedup l) (pairwise_sortDedup l)

/-- Helper: the date union has the same members as its source list. -/
theorem mem_sortDedup (a : ℕ) : ∀ l : List ℕ, a ∈ sortDedup l ↔ a ∈ l
  | [] => Iff.rfl
  | b :: l => by
    show a ∈ insertDate b (sortDedup l) ↔ _
    rw [mem_insertDate b a (sortDedup l), mem_sortDedup a l, List.mem_cons]

/-- Helper: `unionDates` is strictly ascending. -/
theorem pairwise_unionDates (w t r s : Series) :
    (unionDates w t r s).Pairwise (· < ·) :=
  pairwise_sortDedup _

/-- Helper: every key of every input series lies in the union. -/
theorem mem_unionDates_of_key (w t r s : Series) (k : ℕ)
    (h : k ∈ w.map Prod.fst ∨ k ∈ t.map Prod.fst ∨ k ∈ r.map Prod.fst
      ∨ k ∈ s.map Prod.fst) :
    k ∈ unionDates w t r s := by
  unfold unionDates
  rw [mem_sortDedup]
  simp only [List.mem_append]
  tauto

/-- Helper: an exact-date miss means no record carries that date. -/
theorem seriesAt_eq_none_iff (s : Series) (d : ℕ) :
    seriesAt s d = Option.none ↔ ∀ p ∈ s, p.1 ≠ d := by
  simp [seriesAt, List.find?_eq_none]

/-- Helper: an exact-date hit is a record of the series. -/
theorem seriesAt_some_mem (s : Series) (d : ℕ) (v : ℚ)
    (h : seriesAt s d = some v) : (d, v) ∈ s := by
  simp only [seriesAt, Option.map_eq_some'] at h
  obtain ⟨p, hp, hv⟩ := h
  have hmem := List.mem_of_find?_eq_some hp
  have hpred := List.find?_some hp
  cases p with
  | mk a b =>
    simp only [decide_eq_true_eq] at hpred
    subst hpred
    subst hv
    exact hmem

/-- Helper: on a strictly date-sorted series, the last value at a date the
series reports is exactly that report. -/
theorem lastValueLE_of_mem (d : ℕ) (v : ℚ) :
    ∀ s : Series, (s.map Prod.fst).Pairwise (· < ·) →
      (d, v) ∈ s → lastValueLE s d = some v
  | [], _, hmem => absurd hmem (List.not_mem_nil _)
  | (a, b) :: rest, hpw, hmem => by
    rw [List.map_cons, List.pairwise_cons] at hpw
    obtain ⟨ha, hrest⟩ := hpw
    rcases List.mem_cons.mp hmem with heq | hmem2
    · injection heq with h1 h2
      subst h1
      subst h2
      have hnil : rest.filter (fun e => e.1 ≤ d) = [] := by
        rw [List.filter_eq_nil_iff]
        intro p hp
        have := ha p.1 (List.mem_map_of_mem Prod.fst hp)
        simp only [decide_eq_true_eq]
        omega
      unfold lastValueLE
      rw [List.filter_cons, if_pos (by simp), hnil]
      rfl
    · have had : a < d :=
        ha d (List.mem_map.mpr ⟨(d, v), hmem2, rfl⟩)
      have ih := lastValueLE_of_mem d v rest hrest hmem2
      unfold lastValueLE at ih ⊢
      rw [List.filter_cons, if_pos (by simp; omega)]
      cases hfr : rest.filter (fun e => e.1 ≤ d) with
      | nil => rw [hfr] at ih; exact absurd ih (by simp)
      | cons q qs =>
        rw [hfr] at ih
        rw [List.getLast?_cons_cons]
        exact ih

/-- Helper: when a series has no record at `d`, the last value at `d` is
the last value strictly before `d`. -/
theorem lastValueLE_eq_lastValueLT (s : Series) (d : ℕ)
    (h : ∀ p ∈ s, p.1 ≠ d) : lastValueLE s d = lastValueLT s d := by
  unfold lastValueLE lastValueLT
  have hf : s.filter (fun e => e.1 ≤ d) = s.filter (fun e => e.1 < d) := by
    apply List.filter_congr
    intro p hp
    have := h p hp
    apply decide_eq_decide.mpr
    omega
  rw [hf]

/-- Helper: one `ffill` cell equals the forward-filled last known value,
given a carry that is correct for the current date. -/
theorem ffillCell_eq_lastValueLE (s : Series) (d : ℕ) (c : Option ℚ)
    (hs : (s.map Prod.fst).Pairwise (· < ·))
    (hc : c = lastValueLT s d) :
    ffillCell s d c = lastValueLE s d := by
  unfold ffillCell
  cases hv : seriesAt s d with
  | none =>
    rw [hc, lastValueLE_eq_lastValueLT s d ((seriesAt_eq_none_iff s d).mp hv)]
  | some v =>
    exact (lastValueLE_of_mem d v s hs (seriesAt_some_mem s d v hv)).symm

end Claims8

section Claims9

open FredData

/-- Helper: the row-building loop over any strictly ascending date list
that contains every not-yet-consumed key, with carries equal to the last
value strictly before the minimum pending date, produces exactly the
forward-filled, incomplete-row-dropping table described by `rowSpec`. -/
theorem mergeRows_spec (w t r s : Series)
    (hw : (w.map Prod.fst).Pairwise (· < ·))
    (ht : (t.map Prod.fst).Pairwise (· < ·))
    (hr : (r.map Prod.fst).Pairwise (· < ·))
    (hs : (s.map Prod.fst).Pairwise (· < ·)) :
    ∀ (ds : List ℕ) (cw ct cr cs : Option ℚ),
      ds.Pairwise (· < ·) →
      (∀ k ∈ w.map Prod.fst, k ∈ ds ∨ ∀ e ∈ ds, k < e) →
      (∀ k ∈ t.map Prod.fst, k ∈ ds ∨ ∀ e ∈ ds, k < e) →
      (∀ k ∈ r.map Prod.fst, k ∈ ds ∨ ∀ e ∈ ds, k < e) →
      (∀ k ∈ s.map Prod.fst, k ∈ ds ∨ ∀ e ∈ ds, k < e) →
      (∀ d ∈ ds, (∀ e ∈ ds, d ≤ e) → cw = lastValueLT w d) →
      (∀ d ∈ ds, (∀ e ∈ ds, d ≤ e) → ct = lastValueLT t d) →
      (∀ d ∈ ds, (∀ e ∈ ds, d ≤ e) → cr = lastValueLT r d) →
      (∀ d ∈ ds, (∀ e ∈ ds, d ≤ e) → cs = lastValueLT s d) →
      mergeRows w t r s ds cw ct cr cs = ds.filterMap (rowSpec w t r s) := by
  intro ds
  induction ds with
  | nil => intro cw ct cr cs _ _ _ _ _ _ _ _ _; rfl
  | cons d ds ih =>
    intro cw ct cr cs hpw hkw hkt hkr hks hcw hct hcr hcs
    rw [List.pairwise_cons] at hpw
    obtain ⟨hlt, hpw2⟩ := hpw
    have hmind : ∀ e ∈ d :: ds, d ≤ e := by
      intro e he
      rcases List.mem_cons.mp he with rfl | he2
      · exact le_refl _
      · exact (hlt e he2).le
    have hdmem : d ∈ d :: ds := List.mem_cons_self d ds
    -- the cell of each column at the head date is the forward-filled value
    have cw1 : ffillCell w d cw = lastValueLE w d :=
      ffillCell_eq_lastValueLE w d cw hw (hcw d hdmem hmind)
    have ct1 : ffillCell t d ct = lastValueLE t d :=
      ffillCell_eq_lastValueLE t d ct ht (hct d hdmem hmind)
    have cr1 : ffillCell r d cr = lastValueLE r d :=
      ffillCell_eq_lastValueLE r d cr hr (hcr d hdmem hmind)
    have cs1 : ffillCell s d cs = lastValueLE s d :=
      ffillCell_eq_lastValueLE s d cs hs (hcs d hdmem hmind)
    -- the invariant passes to the tail
    have hkeyStep : ∀ (q : Series),
        (∀ k ∈ q.map Prod.fst, k ∈ d :: ds ∨ ∀ e ∈ d :: ds, k < e) →
        ∀ k ∈ q.map Prod.fst, k ∈ ds ∨ ∀ e ∈ ds, k < e := by
      intro q hq k hk
      rcases hq k hk with hin | hsm
      · rcases List.mem_cons.mp hin with rfl | hin2
        · exact Or.inr (fun e he => hlt e he)
        · exact Or.inl hin2
      · exact Or.inr (fun e he => hsm e (List.mem_cons_of_mem d he))
    have hcarryStep : ∀ (q : Series),
        (∀ k ∈ q.map Prod.fst, k ∈ d :: ds ∨ ∀ e ∈ d :: ds, k < e) →
        ∀ d2 ∈ ds, (∀ e ∈ ds, d2 ≤ e) →
          lastValueLE q d = lastValueLT q d2 := by
      intro q hq d2 hd2 hmin2
      unfold lastValueLE lastValueLT
      have hdd2 : d < d2 := hlt d2 hd2
      have hf : q.filter (fun e => e.1 ≤ d) = q.filter (fun e => e.1 < d2) := by
        apply List.filter_congr
        intro p hp
        apply decide_eq_decide.mpr
        rcases hq p.1 (List.mem_map_of_mem Prod.fst hp) with hin | hsm
        · rcases List.mem_cons.mp hin with heq | hin2
          · omega
          · have h5 := hmin2 p.1 hin2
            have h6 := hlt p.1 hin2
            omega
        · have h7 := hsm d hdmem
          omega
      rw [hf]
    have ihh := ih (ffillCell w d cw) (ffillCell t d ct) (ffillCell r d cr)
      (ffillCell s d cs) hpw2 (hkeyStep w hkw) (hkeyStep t hkt)
      (hkeyStep r hkr) (hkeyStep s hks)
      (fun d2 hd2 hm => cw1.trans (hcarryStep w hkw d2 hd2 hm))
      (fun d2 hd2 hm => ct1.trans (hcarryStep t hkt d2 hd2 hm))
      (fun d2 hd2 hm => cr1.trans (hcarryStep r hkr d2 hd2 hm))
      (fun d2 hd2 hm => cs1.trans (hcarryStep s hks d2 hd2 hm))
    show (match ffillCell w d cw, ffillCell t d ct, ffillCell r d cr,
        ffillCell s d cs with
      | some f, some tg, some rr, some sp =>
        mkRow d f tg rr sp :: mergeRows w t r s ds (ffillCell w d cw)
          (ffillCell t d ct) (ffillCell r d cr) (ffillCell s d cs)
      | _, _, _, _ => mergeRows w t r s ds (ffillCell w d cw)
          (ffillCell t d ct) (ffillCell r d cr) (ffillCell s d cs))
      = List.filterMap (rowSpec w t r s) (d :: ds)
    rw [ihh, cw1, ct1, cr1, cs1]
    rcases h1 : lastValueLE w d with _ | f <;>
      rcases h2 : lastValueLE t d with _ | g <;>
        rcases h3 : lastValueLE r d with _ | rr <;>
          rcases h4 : lastValueLE s d with _ | sp <;>
            simp [rowSpec, h1, h2, h3, h4, List.filterMap_cons]

end Claims9

section Claims10

open FredData

/-- Helper: `_merge_series` computes exactly the forward-filled outer join
described by `rowSpec` over the ascending union of the four date indexes. -/
theorem mergeSeries_eq_filterMap (w t r s : Series)
    (hw : (w.map Prod.fst).Pairwise (· < ·))
    (ht : (t.map Prod.fst).Pairwise (· < ·))
    (hr : (r.map Prod.fst).Pairwise (· < ·))
    (hs : (s.map Prod.fst).Pairwise (· < ·)) :
    mergeSeries w t r s
      = (unionDates w t r s).filterMap (rowSpec w t r s) := by
  have hinit : ∀ (q : Series),
      (∀ k ∈ q.map Prod.fst, k ∈ unionDates w t r s) →
      ∀ d ∈ unionDates w t r s, (∀ e ∈ unionDates w t r s, d ≤ e) →
        (Option.none : Option ℚ) = lastValueLT q d := by
    intro q hq d _ hmin
    unfold lastValueLT
    have hnil : q.filter (fun e => e.1 < d) = [] := by
      rw [List.filter_eq_nil_iff]
      intro p hp
      have h1 := hmin p.1 (hq p.1 (List.mem_map_of_mem Prod.fst hp))
      simp only [decide_eq_true_eq]
      omega
    rw [hnil]
    rfl
  unfold mergeSeries
  exact mergeRows_spec w t r s hw ht hr hs (unionDates w t r s)
    Option.none Option.none Option.none Option.none
    (pairwise_unionDates w t r s)
    (fun k hk => Or.inl (mem_unionDates_of_key w t r s k (Or.inl hk)))
    (fun k hk => Or.inl (mem_unionDates_of_key w t r s k (Or.inr (Or.inl hk))))
    (fun k hk => Or.inl (mem_unionDates_of_key w t r s k (Or.inr (Or.inr (Or.inl hk)))))
    (fun k hk => Or.inl (mem_unionDates_of_key w t r s k (Or.inr (Or.inr (Or.inr hk)))))
    (hinit w (fun k hk => mem_unionDates_of_key w t r s k (Or.inl hk)))
    (hinit t (fun k hk => mem_unionDates_of_key w t r s k (Or.inr (Or.inl hk))))
    (hinit r (fun k hk => mem_unionDates_of_key w t r s k (Or.inr (Or.inr (Or.inl hk)))))
    (hinit s (fun k hk => mem_unionDates_of_key w t r s k (Or.inr (Or.inr (Or.inr hk)))))

/-- Helper: a surviving spec row carries the date it was built at. -/
theorem rowSpec_date (w t r s : Series) (d : ℕ) (row : MergedRow)
    (h : rowSpec w t r s d = some row) : row.date = d := by
  rcases h1 : lastValueLE w d with _ | f <;>
    rcases h2 : lastValueLE t d with _ | g <;>
      rcases h3 : lastValueLE r d with _ | rr <;>
        rcases h4 : lastValueLE s d with _ | sp <;>
          simp only [rowSpec, h1, h2, h3, h4] at h <;>
          first
            | exact Option.noConfusion h
            | (injection h with h5
               rw [← h5]
               rfl)

/-- C1: for strictly date-sorted input series (as FRED returns them,
sentinels dropped), `_merge_series` outer-joins the four series on the
ascending union of their dates, forward-fills each column with the last
known value, drops every date at which some series still has no value,
and on each surviving row sets the auxiliary millions column to
`rrp_balance * 1000` and
`net_liquidity = fed_assets - tga_balance - rrp_balance_millions`; the
result is ordered by date ascending. -/
theorem C1_merge_spec (w t r s : Series)
    (hw : (w.map Prod.fst).Pairwise (· < ·))
    (ht : (t.map Prod.fst).Pairwise (· < ·))
    (hr : (r.map Prod.fst).Pairwise (· < ·))
    (hs : (s.map Prod.fst).Pairwise (· < ·)) :
    mergeSeries w t r s
        = (unionDates w t r s).filterMap (rowSpec w t r s)
    ∧ ((mergeSeries w t r s).map MergedRow.date).Pairwise (· < ·)
    ∧ ∀ row ∈ mergeSeries w t r s,
        lastValueLE w row.date = some row.fed_assets
        ∧ lastValueLE t row.date = some row.tga_balance
        ∧ lastValueLE r row.date = some row.rrp_balance
        ∧ lastValueLE s row.date = some row.sp500
        ∧ row.rrp_balance_millions = row.rrp_balance * 1000
        ∧ row.net_liquidity
            = row.fed_assets - row.tga_balance - row.rrp_balance_millions := by
  have heq := mergeSeries_eq_filterMap w t r s hw ht hr hs
  refine ⟨heq, ?_, ?_⟩
  · rw [heq, List.pairwise_map]
    refine List.Pairwise.filterMap (rowSpec w t r s) ?_
      (pairwise_unionDates w t r s)
    intro a b hab x hx y hy
    rw [Option.mem_def] at hx hy
    rw [rowSpec_date w t r s a x hx, rowSpec_date w t r s b y hy]
    exact hab
  · intro row hrow
    rw [heq] at hrow
    obtain ⟨d, _, hspec⟩ := List.mem_filterMap.mp hrow
    have hdate := rowSpec_date w t r s d row hspec
    rcases h1 : lastValueLE w d with _ | f <;>
      rcases h2 : lastValueLE t d with _ | g <;>
        rcases h3 : lastValueLE r d with _ | rr <;>
          rcases h4 : lastValueLE s d with _ | sp <;>
            simp only [rowSpec, h1, h2, h3, h4] at hspec <;>
            first
              | exact Option.noConfusion hspec
              | (injection hspec with h5
                 subst h5
                 exact ⟨h1, h2, h3, h4, rfl, rfl⟩)

end Claims10

section Claims11

open FredData

/-- C1 witness: the theorem applied at a concrete staggered four-series
fixture (weekly-style and daily-style dates). -/
theorem C1_witness :
    ((([(1, 10), (5, 20)] : Series).map Prod.fst).Pairwise (· < ·))
    ∧ ((([(2, 100)] : Series).map Prod.fst).Pairwise (· < ·))
    ∧ ((([(3, 1)] : Series).map Prod.fst).Pairwise (· < ·))
    ∧ ((([(1, 1000), (2, 2000), (3, 3000)] : Series).map Prod.fst).Pairwise (· < ·))
    ∧ mergeSeries [(1, 10), (5, 20)] [(2, 100)] [(3, 1)]
          [(1, 1000), (2, 2000), (3, 3000)]
        = (unionDates [(1, 10), (5, 20)] [(2, 100)] [(3, 1)]
            [(1, 1000), (2, 2000), (3, 3000)]).filterMap
            (rowSpec [(1, 10), (5, 20)] [(2, 100)] [(3, 1)]
              [(1, 1000), (2, 2000), (3, 3000)]) :=
  ⟨by decide!, by decide!, by decide!, by decide!,
    (C1_merge_spec [(1, 10), (5, 20)] [(2, 100)] [(3, 1)]
      [(1, 1000), (2, 2000), (3, 3000)]
      (by decide!) (by decide!) (by decide!) (by decide!)).1⟩

end Claims11

section Claims12

open MarketData FredData

/-- Helper: in a strictly ascending list, every member is bounded by the
last element. -/
theorem pairwise_le_of_getLast? :
    ∀ l : List ℕ, l.Pairwise (· < ·) → ∀ b, l.getLast? = some b →
      ∀ a ∈ l, a ≤ b
  | [], _, b, _, a, ha => absurd ha (List.not_mem_nil a)
  | [x], _, b, hb, a, ha => by
    simp only [List.getLast?_singleton, Option.some.injEq] at hb
    rcases List.mem_singleton.mp ha with rfl
    omega
  | x :: y :: rest, hpw, b, hb, a, ha => by
    rw [List.getLast?_cons_cons] at hb
    rw [List.pairwise_cons] at hpw
    obtain ⟨hx, hpw2⟩ := hpw
    have ih := pairwise_le_of_getLast? (y :: rest) hpw2 b hb
    rcases List.mem_cons.mp ha with rfl | ha2
    · have h1 : y ≤ b := ih y (List.mem_cons_self y rest)
      have h2 : a < y := hx y (List.mem_cons_self y rest)
      omega
    · exact ih a ha2

/-- Helper: four nonempty strictly date-sorted series always merge to a
nonempty table — the greatest union date has a last known value in every
series — so the `merged.empty` branch of line 229 is dead code. -/
theorem mergeSeries_ne_nil (w t r s : Series)
    (hw : (w.map Prod.fst).Pairwise (· < ·))
    (ht : (t.map Prod.fst).Pairwise (· < ·))
    (hr : (r.map Prod.fst).Pairwise (· < ·))
    (hs : (s.map Prod.fst).Pairwise (· < ·))
    (hw0 : w ≠ []) (ht0 : t ≠ []) (hr0 : r ≠ []) (hs0 : s ≠ []) :
    mergeSeries w t r s ≠ [] := by
  obtain ⟨pw, hpw⟩ := List.exists_mem_of_ne_nil w hw0
  have hUne : unionDates w t r s ≠ [] :=
    List.ne_nil_of_mem (mem_unionDates_of_key w t r s pw.1
      (Or.inl (List.mem_map_of_mem Prod.fst hpw)))
  cases hD : (unionDates w t r s).getLast? with
  | none => exact absurd (List.getLast?_eq_none_iff.mp hD) hUne
  | some D =>
    have hDmem : D ∈ unionDates w t r s := List.mem_of_getLast?_eq_some hD
    have hle : ∀ a ∈ unionDates w t r s, a ≤ D :=
      pairwise_le_of_getLast? (unionDates w t r s)
        (pairwise_unionDates w t r s) D hD
    have hcol : ∀ q : Series, q ≠ [] →
        (∀ k ∈ q.map Prod.fst, k ∈ unionDates w t r s) →
        ∃ v, lastValueLE q D = some v := by
      intro q hq hsub
      have hfilter : q.filter (fun e => e.1 ≤ D) = q := by
        rw [List.filter_eq_self]
        intro p hp
        simp only [decide_eq_true_eq]
        exact hle p.1 (hsub p.1 (List.mem_map_of_mem Prod.fst hp))
      unfold lastValueLE
      rw [hfilter]
      cases hq2 : q.getLast? with
      | none => exact absurd (List.getLast?_eq_none_iff.mp hq2) hq
      | some p => exact ⟨p.2, rfl⟩
    obtain ⟨fw, hfw⟩ := hcol w hw0
      (fun k hk => mem_unionDates_of_key w t r s k (Or.inl hk))
    obtain ⟨ftv, hftv⟩ := hcol t ht0
      (fun k hk => mem_unionDates_of_key w t r s k (Or.inr (Or.inl hk)))
    obtain ⟨frv, hfrv⟩ := hcol r hr0
      (fun k hk => mem_unionDates_of_key w t r s k (Or.inr (Or.inr (Or.inl hk))))
    obtain ⟨fsv, hfsv⟩ := hcol s hs0
      (fun k hk => mem_unionDates_of_key w t r s k (Or.inr (Or.inr (Or.inr hk))))
    have hrow : rowSpec w t r s D = some (mkRow D fw ftv frv fsv) := by
      unfold rowSpec
      rw [hfw, hftv, hfrv, hfsv]
    intro hnil
    have hmem : mkRow D fw ftv frv fsv ∈ mergeSeries w t r s := by
      rw [mergeSeries_eq_filterMap w t r s hw ht hr hs]
      exact List.mem_filterMap.mpr ⟨D, hDmem, hrow⟩
    rw [hnil] at hmem
    exact absurd hmem (List.not_mem_nil _)

/-- C3 counterexample: with one successfully fetched zero-record series
(and the others nonempty) the merged table is empty, yet the call fails
with the generic `KeyError` that `_merge_series` raises on the
column-less empty frame — not with the distinct empty-merge error the
claim promises for an empty merged table. -/
theorem C3_counterexample :
    mergeSeries [] [(1, 1)] [(1, 1)] [(1, 1)] = []
    ∧ (getLiquidityData Option.none ⟨0, "t"⟩ 3600 (some "k") ""
        ⟨.ok [], .ok [(1, 1)], .ok [(1, 1)], .ok [(1, 1)]⟩).outcome
      = .error .keyError
    ∧ LiqError.keyError ≠ LiqError.emptyMerge := by
  refine ⟨by decide!, rfl, by decide!⟩

/-- C3 (amended): on a liquidity cache miss: a missing credential fails
with the distinct missing-credential error, whose message carries the
remediation URL, before any upstream fetch; a successfully fetched series
with zero records makes the call fail with the generic pandas `KeyError`
raised inside `_merge_series` (distinct from neither `ValueError`) before
the empty-merge check; four nonempty strictly date-sorted series always
merge to a nonempty table, so the distinct empty-merge error of line 229
is unreachable dead code; every failure outcome leaves the cache entry
unchanged; and a previously cached entry is still served by a later call
within its TTL window. -/
theorem C3_failure_semantics (cache : Option LiqCacheEntry)
    (now : PyDateTime) (ttl : ℚ) (apiKey : Option String) (envKey : String)
    (f : LiqFetch) (hmiss : liqHit cache now.epoch ttl = false) :
    (resolveKey apiKey envKey = "" →
      (getLiquidityData cache now ttl apiKey envKey f).outcome
          = .error .missingApiKey
        ∧ (getLiquidityData cache now ttl apiKey envKey f).fetchCalls = 0
        ∧ (getLiquidityData cache now ttl apiKey envKey f).cacheAfter = cache)
    ∧ (∃ a b, liqErrorMessage .missingApiKey = a ++ remediationUrl ++ b)
    ∧ (∀ w t r s, resolveKey apiKey envKey ≠ "" →
        f.walcl = .ok w → f.wdtgal = .ok t →
        f.rrpontsyd = .ok r → f.sp500 = .ok s →
        (w = [] ∨ t = [] ∨ r = [] ∨ s = []) →
        (getLiquidityData cache now ttl apiKey envKey f).outcome
            = .error .keyError
          ∧ (getLiquidityData cache now ttl apiKey envKey f).cacheAfter
              = cache)
    ∧ LiqError.keyError ≠ LiqError.emptyMerge
    ∧ LiqError.keyError ≠ LiqError.missingApiKey
    ∧ (∀ w t r s : Series,
        (w.map Prod.fst).Pairwise (· < ·) →
        (t.map Prod.fst).Pairwise (· < ·) →
        (r.map Prod.fst).Pairwise (· < ·) →
        (s.map Prod.fst).Pairwise (· < ·) →
        w ≠ [] → t ≠ [] → r ≠ [] → s ≠ [] → mergeSeries w t r s ≠ [])
    ∧ (∀ e, (getLiquidityData cache now ttl apiKey envKey f).outcome
          = .error e →
        (getLiquidityData cache now ttl apiKey envKey f).cacheAfter = cache)
    ∧ (∀ (c : LiqCacheEntry) (t2 : PyDateTime) (ttl2 : ℚ)
        (k2 : Option String) (e2 : String) (f2 : LiqFetch) (e : LiqError),
        cache = some c →
        (getLiquidityData cache now ttl apiKey envKey f).outcome = .error e →
        t2.epoch - c.fetched_at < ttl2 →
        getLiquidityData
            (getLiquidityData cache now ttl apiKey envKey f).cacheAfter
            t2 ttl2 k2 e2 f2
          = { outcome := .ok (c.data, c.history, c.last_updated, true)
              cacheAfter := some c, fetchCalls := 0 }) := by
  rw [getLiquidityData_miss cache now ttl apiKey envKey f hmiss]
  refine ⟨?_, ?_, ?_, by decide, by decide, ?_, ?_, ?_⟩
  · intro hk
    refine ⟨?_, ?_, ?_⟩ <;> simp [getLiquidityData.liqRefresh, hk]
  · exact ⟨"FRED_API_KEY 환경변수를 설정해주세요. 무료 API 키 발급: ", "",
      by decide!⟩
  · intro w t r s hk hw ht hr hs hor
    have hres : getLiquidityData.liqRefresh cache now apiKey envKey f
        = { outcome := .error .keyError, cacheAfter := cache
            fetchCalls := 4 } := by
      simp only [getLiquidityData.liqRefresh, hw, ht, hr, hs, if_neg hk,
        if_pos hor]
    rw [hres]
    exact ⟨rfl, rfl⟩
  · exact fun w t r s hw ht hr hs hw0 ht0 hr0 hs0 =>
      mergeSeries_ne_nil w t r s hw ht hr hs hw0 ht0 hr0 hs0
  · intro e he
    exact liqRefresh_error_keeps_cache cache now apiKey envKey f e he
  · intro c t2 ttl2 k2 e2 f2 e hc he helapsed
    rw [liqRefresh_error_keeps_cache cache now apiKey envKey f e he, hc]
    exact getLiquidityData_hit c t2 ttl2 k2 e2 f2 helapsed

/-- C3 witness: a stale cache entry, no credential from argument or
environment: the distinct error, zero fetches, cache untouched. -/
theorem C3_witness :
    liqHit (some ⟨0, ⟨0, "", 0, "", 0, "", 0, "", 0, "", 0, 0, 0, 0, 0⟩, [], "lu"⟩)
        (PyDateTime.mk 7200 "t").epoch 3600 = false
    ∧ resolveKey Option.none "" = ""
    ∧ ((getLiquidityData
          (some ⟨0, ⟨0, "", 0, "", 0, "", 0, "", 0, "", 0, 0, 0, 0, 0⟩, [], "lu"⟩)
          ⟨7200, "t"⟩ 3600 Option.none ""
          ⟨.error (), .error (), .error (), .error ()⟩).outcome
        = .error .missingApiKey
      ∧ (getLiquidityData
          (some ⟨0, ⟨0, "", 0, "", 0, "", 0, "", 0, "", 0, 0, 0, 0, 0⟩, [], "lu"⟩)
          ⟨7200, "t"⟩ 3600 Option.none ""
          ⟨.error (), .error (), .error (), .error ()⟩).fetchCalls = 0
      ∧ (getLiquidityData
          (some ⟨0, ⟨0, "", 0, "", 0, "", 0, "", 0, "", 0, 0, 0, 0, 0⟩, [], "lu"⟩)
          ⟨7200, "t"⟩ 3600 Option.none ""
          ⟨.error (), .error (), .error (), .error ()⟩).cacheAfter
        = some ⟨0, ⟨0, "", 0, "", 0, "", 0, "", 0, "", 0, 0, 0, 0, 0⟩, [], "lu"⟩) :=
  ⟨by decide!, by decide!,
    (C3_failure_semantics
      (some ⟨0, ⟨0, "", 0, "", 0, "", 0, "", 0, "", 0, 0, 0, 0, 0⟩, [], "lu"⟩)
      ⟨7200, "t"⟩ 3600 Option.none ""
      ⟨.error (), .error (), .error (), .error ()⟩ (by decide!)).1 (by decide!)⟩

end Claims12
